import Mathlib

/-!
Verification of the vector_store semantic code-search core of this repository.

The repository snapshot under verification ships the test module
`crates/vector_store/src/vector_store_tests.rs` (the authority for concrete
behaviour) while the implementation modules it exercises (`parsing.rs`,
`db.rs`, `vector_store.rs`, `embedding.rs`) are not part of the snapshot.
Those operations are therefore modelled here from the specification, with
every concrete format and expected value pinned by the shipped tests.

Modelling conventions, used throughout:
* Byte offsets: all fixture sources are ASCII, so byte offsets and character
  offsets coincide; strings are handled through their character lists.
* `f32` arithmetic is modelled exactly: counters and accumulators stay in
  `Nat`/`ℚ` (all fixture values are far below 2^24, where `f32` addition of
  integers is exact), and comparisons of normalized similarity scores are
  expressed by exact cross-multiplication, which orders cosines identically.
* The syntax tree produced by the grammar collaborator is out of scope per
  the spec; extraction consumes the collaborator's query matches (capture
  byte ranges) as input.
-/

namespace parsing

/-- A single indexed unit, mirroring `parsing::Document` as pinned by the
tests: a name, a half-open byte range into the original source, the content
block sent for embedding, and the embedding vector (empty until assigned).
The embedding is kept as the exact per-letter count vector produced by the
test embedding provider before normalization; see `rawEmbed`. -/
structure Document where
  name : String
  range : Nat × Nat
  content : String
  embedding : List Nat
deriving DecidableEq, Repr

/-- Modelled from the spec: one match of a language extraction pattern, as
delivered by the external grammar/query collaborator (a black box yielding a
queryable tree over byte ranges). It carries the byte ranges of the
`@context` captures (contiguous comment lines immediately above the item, in
source order), of the `@name` captures (possibly several, e.g. trait,
`for`, and type of an `impl`), and of the `@item` capture. -/
structure QueryMatch where
  contexts : List (Nat × Nat)
  nameRanges : List (Nat × Nat)
  itemRange : Nat × Nat
deriving DecidableEq, Repr

/-- The substring of `s` covering character offsets `[a, b)`. -/
def sliceStr (s : String) (a b : Nat) : String :=
  String.mk ((s.data.drop a).take (b - a))

/-- Modelled from the spec: the byte offset where a match's content slice
begins — the start of the earliest context capture, or the item itself when
there is no context. -/
def contentStartOf (m : QueryMatch) : Nat :=
  match m.contexts with
  | [] => m.itemRange.1
  | c :: _ => c.1

/-- Modelled from the spec: a composite construct name, the `@name` capture
texts joined in source order (e.g. `C for D` for `impl C for D`). -/
def nameOf (source : String) (m : QueryMatch) : String :=
  String.intercalate " " (m.nameRanges.map (fun r => sliceStr source r.1 r.2))

/-- The synthesized content block, in the exact format pinned by
`test_code_context_retrieval`: a header line naming the source file, then a
fenced code block with the verbatim slice from the earliest context capture
(or the item) through the end of the item capture. -/
def mkContent (path source : String) (m : QueryMatch) : String :=
  "The below code snippet is from file \x27" ++ path ++ "\x27\n\n```rust\n"
    ++ sliceStr source (contentStartOf m) m.itemRange.2 ++ "\n```"

/-- `r1` strictly subsumes `r2`: it covers it and is not the same range. -/
def strictlyContains (r1 r2 : Nat × Nat) : Prop :=
  r1.1 ≤ r2.1 ∧ r2.2 ≤ r1.2 ∧ r1 ≠ r2

instance (r1 r2 : Nat × Nat) : Decidable (strictlyContains r1 r2) := by
  unfold strictlyContains
  exact inferInstance

/-- Modelled from the spec: the overlap-skip policy of the extractor — a
match whose item range is strictly subsumed by another match's item range is
dropped (outer takes precedence), so nested matches for the same declaration
never produce duplicate documents. -/
def keptMatches (ms : List QueryMatch) : List QueryMatch :=
  ms.filter (fun m => !(ms.any (fun n => decide (strictlyContains n.itemRange m.itemRange))))

/-- Modelled from the spec: the shape guarantee of the grammar collaborator.
Item captures are syntax-tree nodes, so the item ranges of two distinct
matches are either disjoint or strictly nested; no two distinct matches
share the exact same item range (the patterns target distinct node kinds). -/
def sepOrNested (m1 m2 : QueryMatch) : Prop :=
  m1.itemRange.2 ≤ m2.itemRange.1 ∨ m2.itemRange.2 ≤ m1.itemRange.1 ∨
    strictlyContains m1.itemRange m2.itemRange ∨
    strictlyContains m2.itemRange m1.itemRange

instance (m1 m2 : QueryMatch) : Decidable (sepOrNested m1 m2) := by
  unfold sepOrNested
  exact inferInstance

/-- Modelled from the spec: `CodeContextRetriever::parse_file`, absent from
the snapshot. Given the file path, the source text and the grammar
collaborator's query matches, it drops strictly-subsumed matches, orders the
survivors by ascending start offset (source order), and synthesizes one
`Document` per match: composite name, the item's own byte range, the
header-plus-fenced-block content, and an empty embedding. -/
def parse_file (path source : String) (ms : List QueryMatch) : List Document :=
  let sorted := List.insertionSort
    (fun m1 m2 => m1.itemRange.1 ≤ m2.itemRange.1) (keptMatches ms)
  sorted.map (fun m =>
    { name := nameOf source m
      range := m.itemRange
      content := mkContent path source m
      embedding := [] })

/-- The fixture source of `test_code_context_retrieval`: a doc-commented
function followed by a trait implementation. -/
def fooText : String :=
  "/// A doc comment\n/// that spans multiple lines\nfn a() \x7b\n    b\n\x7d\n\nimpl C for D \x7b\n\x7d\n"

/-- The grammar collaborator's matches on `fooText` under the Rust embedding
query of the tests: the `function_item` with its two preceding `line_comment`
context captures, and the `impl_item` with trait, `for` and type name
captures. -/
def fooMatches : List QueryMatch :=
  [ { contexts := [(0, 17), (18, 47)], nameRanges := [(51, 52)], itemRange := (48, 64) },
    { contexts := [], nameRanges := [(71, 72), (73, 76), (77, 78)], itemRange := (66, 82) } ]

end parsing

namespace db

/-- Tail of the similarity loop: the running accumulator of `db::dot`. -/
def dotAux : List ℚ → List ℚ → ℚ → ℚ
  | x :: xs, y :: ys, acc => dotAux xs ys (acc + x * y)
  | _, _, acc => acc

/-- Modelled from the spec: `db::dot`, absent from the snapshot — the
similarity of two embedding vectors, computed as their dot product by a
running accumulator over paired coordinates. `f32` coordinates are modelled
as exact rationals. -/
def dot (a b : List ℚ) : ℚ := dotAux a b 0

/-- The reference dot product from `test_dot_product`
(`a.iter().zip(b.iter()).map(|(a, b)| a * b).sum()`). -/
def reference_dot (a b : List ℚ) : ℚ :=
  ((a.zip b).map (fun p => p.1 * p.2)).sum

/-- The squared Euclidean length of a vector. -/
def sumSquares (a : List ℚ) : ℚ := (a.map (fun x => x * x)).sum

/-- A unit-length vector, stated exactly: its squared Euclidean norm is 1
(equivalent to Euclidean length 1 over the reals). -/
def unitLength (a : List ℚ) : Prop := sumSquares a = 1

instance (a : List ℚ) : Decidable (unitLength a) := by
  unfold unitLength
  exact inferInstance

end db

namespace embedding

/-- The per-letter count vector computed by `FakeEmbeddingProvider::
embed_batch` before normalization: 26 counters starting at 1, and for every
character of the span, its ASCII-lowercased code point, when it lies in
`a`..`z`, bumps the matching counter. The provider then divides by the
Euclidean norm; the normalization is kept symbolic (see `C9` below), and
similarity comparisons cancel it exactly. -/
def rawEmbed (span : String) : List Nat :=
  span.data.foldl
    (fun acc c =>
      let n := c.toNat
      let n := if 65 ≤ n ∧ n ≤ 90 then n + 32 else n
      if 97 ≤ n ∧ n < 123 then acc.set (n - 97) ((acc.getD (n - 97) 0).succ) else acc)
    (List.replicate 26 1)

/-- Sum of squared entries of a count vector. -/
def sumSqNat (l : List Nat) : Nat := (l.map (fun n => n * n)).sum

/-- Dot product of two count vectors. -/
def dotN : List Nat → List Nat → Nat
  | x :: xs, y :: ys => x * y + dotN xs ys
  | _, _ => 0

end embedding

open parsing embedding

/-- One file delivered by the project/worktree collaborator: a stable
worktree identifier, a worktree-relative path, and the file's content
bytes. -/
structure FileSnapshot where
  worktreeId : Nat
  path : String
  content : String
deriving DecidableEq, Repr

/-- The database key of a file: `(worktree_id, relative_path)`. -/
def keyOf (f : FileSnapshot) : Nat × String := (f.worktreeId, f.path)

/-- One persisted Indexed File Record: the key, the content fingerprint
(modelled as the content itself — an exact, deterministic summary), and the
file's current documents. -/
abbrev DBEntry := (Nat × String) × String × List Document

/-- Association-list lookup in the vector database. -/
def dbLookup : List DBEntry → Nat × String → Option (String × List Document)
  | [], _ => none
  | e :: rest, k => if e.1 = k then some e.2 else dbLookup rest k

/-- Modelled from the spec: the database `upsert` — atomic replacement of
the record under a key: any prior record under the key is discarded and the
new record installed. -/
def upsert (db : List DBEntry) (k : Nat × String) (v : String × List Document) :
    List DBEntry :=
  (k, v) :: db.filter (fun e => decide (e.1 ≠ k))

/-- Modelled from the spec: the in-memory vector store state — the
persistent database, the per-project pending counters (absent for a project
never submitted to `index_project`), and the cumulative number of spans the
embedding provider has been asked to embed (the test provider's
`embedding_count`). -/
structure VectorStore where
  db : List DBEntry
  pending : List (Nat × Nat)
  embedCount : Nat
deriving DecidableEq, Repr

/-- A fresh store: empty database, no project registered, no embedding
calls. -/
def VectorStore.empty : VectorStore := ⟨[], [], 0⟩

/-- Association-list lookup of a project's pending counter. -/
def lookupPending : List (Nat × Nat) → Nat → Option Nat
  | [], _ => none
  | e :: rest, pid => if e.1 = pid then some e.2 else lookupPending rest pid

/-- Replace a project's pending counter: functional update of the
association list (lookup takes the first match). -/
def setPending (p : List (Nat × Nat)) (pid n : Nat) : List (Nat × Nat) :=
  (pid, n) :: p

/-- A file is selected for (re)indexing when the database has no fingerprint
for its key or the stored fingerprint differs from its current content. -/
def fileChanged (db : List DBEntry) (f : FileSnapshot) : Bool :=
  match dbLookup db (keyOf f) with
  | some (fp, _) => decide (fp ≠ f.content)
  | none => true

/-- Attach the provider's embedding (the exact pre-normalization count
vector) to each freshly parsed document. -/
def embedDocs (docs : List Document) : List Document :=
  docs.map (fun d => { d with embedding := rawEmbed d.content })

/-- The subset of the enumerated files selected for (re)indexing: those
whose language is registered (`parse` succeeds) and whose fingerprint is new
or changed. -/
def changedFiles (parse : FileSnapshot → Option (List Document))
    (db : List DBEntry) (files : List FileSnapshot) : List FileSnapshot :=
  files.filter (fun f => (parse f).isSome && fileChanged db f)

/-- Deleted-file handling: records under the project's worktrees whose key
is no longer enumerated are removed. -/
def pruneDb (db : List DBEntry) (files : List FileSnapshot) : List DBEntry :=
  db.filter (fun e : DBEntry =>
    !(decide (e.1.1 ∈ files.map (fun f => f.worktreeId)) &&
      !(decide (e.1 ∈ files.map keyOf))))

/-- Commit each selected file in turn: atomically replace its record with
the fresh fingerprint and its freshly parsed-and-embedded documents. -/
def commitFiles (parse : FileSnapshot → Option (List Document))
    (db : List DBEntry) (l : List FileSnapshot) : List DBEntry :=
  l.foldl (fun db f => upsert db (keyOf f) (f.content, embedDocs ((parse f).getD []))) db

/-- The number of spans submitted to the embedding provider for the
selected files: one span per extracted document. -/
def spanCount (parse : FileSnapshot → Option (List Document))
    (l : List FileSnapshot) : Nat :=
  (l.map (fun f => ((parse f).getD []).length)).sum

/-- Modelled from the spec: `VectorStore::index_project`, absent from the
snapshot, in its synchronous fully-drained form. `parse` is the composition
of the language registry and the extractor: `none` means the file's language
has no registered definition and the file is skipped. The pass selects the
enumerated files that are new or changed by fingerprint, removes records of
files no longer enumerated under the project's worktrees, embeds exactly the
selected files' spans (one span per document), atomically replaces each
selected file's record, and leaves the project's pending counter drained at
zero. It returns the number of files selected by this call. -/
def index_project (parse : FileSnapshot → Option (List Document))
    (store : VectorStore) (pid : Nat) (files : List FileSnapshot) :
    Nat × VectorStore :=
  ((changedFiles parse store.db files).length,
    { db := commitFiles parse (pruneDb store.db files) (changedFiles parse store.db files)
      pending := setPending store.pending pid 0
      embedCount := store.embedCount + spanCount parse (changedFiles parse store.db files) })

/-- Modelled from the spec: `remaining_files_to_index_for_project` — `none`
for a project never submitted to `index_project`, otherwise the current
pending count. -/
def remaining_files_to_index_for_project (store : VectorStore) (pid : Nat) :
    Option Nat :=
  lookupPending store.pending pid

/-- The errors `search_project` can surface. -/
inductive SearchError
  | invalidLimit
  | embeddingFailed
deriving DecidableEq, Repr

/-- A search result: document name, byte range, owning worktree identifier,
and the squared cosine similarity to the query (an exact rational; the
ranking below orders by the cosine itself, which is nonnegative here). -/
structure SearchResult where
  name : String
  byteRange : Nat × Nat
  worktreeId : Nat
  similaritySq : ℚ
deriving DecidableEq, Repr

/-- Ranking comparator over `(key, document)` pairs for a query count vector
`q`: descending cosine similarity — compared exactly by cross-multiplying
the squared dot products with the squared norms, which is equivalent because
every count vector here has positive entries — with ties broken by ascending
`range.start`, then by worktree identifier. -/
def rankBefore (q : List Nat) (a b : (Nat × String) × Document) : Bool :=
  let ca := (dotN q a.2.embedding) ^ 2 * sumSqNat b.2.embedding
  let cb := (dotN q b.2.embedding) ^ 2 * sumSqNat a.2.embedding
  decide (cb < ca) ||
    (decide (ca = cb) &&
      (decide (a.2.range.1 < b.2.range.1) ||
        (decide (a.2.range.1 = b.2.range.1) && decide (a.1.1 ≤ b.1.1))))

/-- Insert into a list sorted by the comparator `le`. -/
def insertBy (le : α → α → Bool) (x : α) : List α → List α
  | [] => [x]
  | y :: ys => if le x y then x :: y :: ys else y :: insertBy le x ys

/-- Insertion sort by a boolean comparator. -/
def sortBy (le : α → α → Bool) : List α → List α
  | [] => []
  | x :: xs => insertBy le x (sortBy le xs)

/-- Modelled from the spec: `VectorStore::search_project`, absent from the
snapshot. A non-positive limit fails with `InvalidLimit`; otherwise the
query is embedded through the same provider, every document stored for the
project's worktrees is scanned, and the top `limit` by descending cosine
similarity (ties by source order, then worktree) are returned. -/
def search_project (store : VectorStore) (wts : List Nat) (query : String)
    (limit : Nat) : Except SearchError (List SearchResult) :=
  if limit = 0 then .error .invalidLimit
  else
    let q := rawEmbed query
    let entries := store.db.filter (fun e : DBEntry => decide (e.1.1 ∈ wts))
    let pairs := (entries.map (fun e => e.2.2.map (fun d => (e.1, d)))).flatten
    let ranked := sortBy (rankBefore q) pairs
    .ok ((ranked.take limit).map (fun p =>
      { name := p.2.name
        byteRange := p.2.range
        worktreeId := p.1.1
        similaritySq :=
          ((dotN q p.2.embedding) ^ 2 : ℚ) /
            ((sumSqNat q * sumSqNat p.2.embedding : Nat) : ℚ) }))

/-- `src/file1.rs` of `test_vector_store`: functions `aaa` and
`zzzzzzzzz`. -/
def file1Text : String :=
  "fn aaa() \x7b\n    println!(\"aaaa!\");\n\x7d\n\nfn zzzzzzzzz() \x7b\n    println!(\"SLEEPING\");\n\x7d\n"

/-- The grammar collaborator's matches on `file1Text`: the two
`function_item` nodes with their name captures, no context comments. -/
def file1Matches : List QueryMatch :=
  [ { contexts := [], nameRanges := [(3, 6)], itemRange := (0, 35) },
    { contexts := [], nameRanges := [(40, 49)], itemRange := (37, 81) } ]

/-- `src/file2.rs` of `test_vector_store` before the edit: function
`bbb`. -/
def file2Text : String :=
  "fn bbb() \x7b\n    println!(\"bbbb!\");\n\x7d\n"

/-- The single `function_item` match on `file2Text`. -/
def file2Matches : List QueryMatch :=
  [ { contexts := [], nameRanges := [(3, 6)], itemRange := (0, 35) } ]

/-- `src/file2.rs` after the in-test edit: function `dddd` and struct
`pqpqpqp` — two documents. -/
def file2TextB : String :=
  "fn dddd() \x7b println!(\"ddddd!\"); \x7d\nstruct pqpqpqp \x7b\x7d\n"

/-- The `function_item` and `struct_item` matches on `file2TextB`. -/
def file2MatchesB : List QueryMatch :=
  [ { contexts := [], nameRanges := [(3, 7)], itemRange := (0, 33) },
    { contexts := [], nameRanges := [(41, 48)], itemRange := (34, 51) } ]

/-- The language registry plus extractor of the test project: Rust is
registered for the three concrete file contents that occur in
`test_vector_store`; any other content is unparsed. -/
def concreteParse (f : FileSnapshot) : Option (List Document) :=
  if f.content = file1Text then some (parse_file f.path file1Text file1Matches)
  else if f.content = file2Text then some (parse_file f.path file2Text file2Matches)
  else if f.content = file2TextB then some (parse_file f.path file2TextB file2MatchesB)
  else none

/-- The enumerated files of the test project `/the-root`, both in the single
worktree with identifier 1. -/
def fs1 : FileSnapshot := ⟨1, "src/file1.rs", file1Text⟩

/-- The second enumerated file of the test project. -/
def fs2 : FileSnapshot := ⟨1, "src/file2.rs", file2Text⟩

/-- The store after the first fully drained `index_project` pass of
`test_vector_store`. -/
def storeAfterFirstPass : VectorStore :=
  (index_project concreteParse VectorStore.empty 0 [fs1, fs2]).2

/-- A minimal trait-implementation source, `impl C for D \x7b \x7d`. -/
def implText : String := "impl C for D \x7b\n\x7d\n"

/-- The single `impl_item` match on `implText`, capturing the trait `C`,
the keyword `for` and the type `D` as its name captures. -/
def implMatches : List QueryMatch :=
  [ { contexts := [], nameRanges := [(5, 6), (7, 10), (11, 12)], itemRange := (0, 16) } ]

namespace db

theorem dotAux_eq (a : List ℚ) : ∀ (b : List ℚ) (acc : ℚ),
    dotAux a b acc = acc + reference_dot a b := by
  induction a with
  | nil => intro b acc; simp [dotAux, reference_dot]
  | cons x xs ih =>
    intro b acc
    cases b with
    | nil => simp [dotAux, reference_dot]
    | cons y ys => simp [dotAux, reference_dot, ih]; ring

theorem dot_eq_reference (a b : List ℚ) : dot a b = reference_dot a b := by
  simp [dot, dotAux_eq]

theorem reference_dot_comm (a : List ℚ) : ∀ b : List ℚ,
    reference_dot a b = reference_dot b a := by
  induction a with
  | nil => intro b; cases b <;> simp [reference_dot]
  | cons x xs ih =>
    intro b
    cases b with
    | nil => simp [reference_dot]
    | cons y ys =>
      have h := ih ys
      simp only [reference_dot, List.zip_cons_cons, List.map_cons, List.sum_cons] at h ⊢
      rw [h]; ring

theorem reference_dot_self (a : List ℚ) : reference_dot a a = sumSquares a := by
  induction a with
  | nil => simp [reference_dot, sumSquares]
  | cons x xs ih => simp [reference_dot, sumSquares] at ih ⊢; simp [ih]

end db

/-- C7: the similarity function `db::dot` is commutative — for every pair of
equal-length vectors `a` and `b`, `dot a b = dot b a` — and for every
unit-length vector `a`, `dot a a = 1` (exactly, in the exact-rational model
of `f32`, hence within floating tolerance). -/
theorem C7_dot_commutative_unit :
    (∀ a b : List ℚ, a.length = b.length → db.dot a b = db.dot b a) ∧
    (∀ a : List ℚ, db.unitLength a → db.dot a a = 1) := by
  constructor
  · intro a b _
    rw [db.dot_eq_reference, db.dot_eq_reference, db.reference_dot_comm]
  · intro a ha
    rw [db.dot_eq_reference, db.reference_dot_self]
    exact ha

/-- Witness for C7 at concrete inputs: the unit basis vector of the test's
first `dot` assertion. -/
theorem C7_dot_commutative_unit_witness :
    ([(1 : ℚ), 0, 0, 0, 0].length = [(0 : ℚ), 1, 0, 0, 0].length ∧
      db.dot [(1 : ℚ), 0, 0, 0, 0] [(0 : ℚ), 1, 0, 0, 0] =
        db.dot [(0 : ℚ), 1, 0, 0, 0] [(1 : ℚ), 0, 0, 0, 0]) ∧
    (db.unitLength [(1 : ℚ), 0, 0, 0, 0] ∧ db.dot [(1 : ℚ), 0, 0, 0, 0] [(1 : ℚ), 0, 0, 0, 0] = 1) := by
  have hu : db.unitLength [(1 : ℚ), 0, 0, 0, 0] := by
    norm_num [db.unitLength, db.sumSquares]
  refine ⟨⟨rfl, ?_⟩, ⟨hu, ?_⟩⟩
  · exact C7_dot_commutative_unit.1 _ _ rfl
  · exact C7_dot_commutative_unit.2 _ hu

/-- C8: for every pair of equal-length vectors, the optimized `db::dot`
agrees with the reference definition `sum of a i * b i` of the test — in the
exact-rational model the agreement is exact equality, hence within the
test's one-decimal rounding tolerance. -/
theorem C8_dot_refines_reference (a b : List ℚ) (_h : a.length = b.length) :
    db.dot a b = db.reference_dot a b :=
  db.dot_eq_reference a b

/-- Witness for C8 at the test's concrete input `dot([2,0,0,0,0],[3,1,0,0,0])`. -/
theorem C8_dot_refines_reference_witness :
    [(2 : ℚ), 0, 0, 0, 0].length = [(3 : ℚ), 1, 0, 0, 0].length ∧
      db.dot [(2 : ℚ), 0, 0, 0, 0] [(3 : ℚ), 1, 0, 0, 0] =
        db.reference_dot [(2 : ℚ), 0, 0, 0, 0] [(3 : ℚ), 1, 0, 0, 0] :=
  ⟨rfl, C8_dot_refines_reference _ _ rfl⟩

/-- C6: a pattern capturing both a trait and a target type yields the
composite name: parsing a file containing `impl C for D` produces a
Document named `C for D`. -/
theorem C6_composite_impl_name :
    (parse_file "foo.rs" implText implMatches).map Document.name = ["C for D"] := by
  decide

/-- C4 counterexample: on the doc-commented function of
`test_code_context_retrieval`, the first extracted Document's content block
does start at the first comment line (`contentStartOf` is byte 0, and the
fenced block of the pinned content opens with the comment), but its `range`
starts at byte 48 — the `fn` item itself — not at the comment line, refuting
the claim that range begins at the same start as the content slice. -/
theorem C4_range_counterexample :
    parse_file "foo.rs" fooText fooMatches =
      [ { name := "a"
          range := (48, 64)
          content := "The below code snippet is from file \x27foo.rs\x27\n\n```rust\n/// A doc comment\n/// that spans multiple lines\nfn a() \x7b\n    b\n\x7d\n```"
          embedding := [] },
        { name := "C for D"
          range := (66, 82)
          content := "The below code snippet is from file \x27foo.rs\x27\n\n```rust\nimpl C for D \x7b\n\x7d\n```"
          embedding := [] } ] ∧
    contentStartOf (fooMatches.getD 0 ⟨[], [], (0, 0)⟩) = 0 ∧
    ((parse_file "foo.rs" fooText fooMatches).getD 0 ⟨"", (0, 0), "", []⟩).range.1 = 48 ∧
    (48 : Nat) ≠ 0 := by
  refine ⟨by decide, by decide, by decide, by decide⟩

/-- C4 (amended): every extracted Document's content is the header line
naming the source file followed by a fenced code block holding the verbatim
slice from the start of the earliest context capture (or the item itself if
there is no context) through the end of the item capture, while its range is
the item capture's own byte interval — so for a function preceded by doc
comments, content begins at the first comment line but range begins at the
function item. -/
theorem C4_content_and_range (path source : String) (ms : List QueryMatch)
    (d : Document) (hd : d ∈ parse_file path source ms) :
    ∃ m ∈ ms, d.content = mkContent path source m ∧ d.range = m.itemRange := by
  simp only [parse_file, List.mem_map] at hd
  obtain ⟨m, hm, rfl⟩ := hd
  have hm1 : m ∈ keptMatches ms := (List.perm_insertionSort _ _).mem_iff.mp hm
  exact ⟨m, List.mem_of_mem_filter hm1, rfl, rfl⟩

/-- Witness for C4 at the first Document of the doc-comment fixture. -/
theorem C4_content_and_range_witness :
    ∃ m ∈ fooMatches,
      ((parse_file "foo.rs" fooText fooMatches).getD 0 ⟨"", (0, 0), "", []⟩).content =
        mkContent "foo.rs" fooText m ∧
      ((parse_file "foo.rs" fooText fooMatches).getD 0 ⟨"", (0, 0), "", []⟩).range =
        m.itemRange :=
  C4_content_and_range _ _ _ _ (by decide)

/-- Each summand of the normalized squared sum is the squared entry over
the squared norm. -/
theorem sum_map_div_sq (l : List Nat) (t : ℝ) :
    ((l.map (fun n : ℕ => ((n : ℝ) / t) ^ 2)).sum) = (sumSqNat l : ℝ) / t ^ 2 := by
  induction l with
  | nil => simp [sumSqNat]
  | cons x xs ih =>
    simp only [sumSqNat, List.map_cons, List.sum_cons] at ih ⊢
    rw [ih, div_pow, div_add_div_same]
    push_cast
    ring_nf

/-- C9: extraction alone always yields Documents with an empty embedding
field (it is populated only by the Embedding Client), and the provider's
normalized vectors have unit Euclidean length: for any span, dividing the
raw count vector by any positive `t` whose square is the sum of squared
counts (i.e. by the Euclidean norm) gives squared entries summing to 1. -/
theorem C9_embedding_lifecycle :
    (∀ (path source : String) (ms : List QueryMatch),
      ∀ d ∈ parse_file path source ms, d.embedding = []) ∧
    (∀ (s : String) (t : ℝ), 0 < t → t ^ 2 = (sumSqNat (rawEmbed s) : ℝ) →
      ((rawEmbed s).map (fun n : ℕ => ((n : ℝ) / t) ^ 2)).sum = 1) := by
  constructor
  · intro path source ms d hd
    simp only [parse_file, List.mem_map] at hd
    obtain ⟨m, _, rfl⟩ := hd
    rfl
  · intro s t ht hsq
    rw [sum_map_div_sq, ← hsq, div_self]
    exact pow_ne_zero 2 (ne_of_gt ht)

/-- Witness for C9: the first Document extracted from the doc-comment
fixture has an empty embedding, and the raw count vector of the span of
eleven `a`s has squared norm `169 = 13 ^ 2`, so its normalization by 13 has
squared entries summing to 1. -/
theorem C9_embedding_lifecycle_witness :
    ((parse_file "foo.rs" fooText fooMatches).getD 0 ⟨"", (0, 0), "", [0]⟩).embedding = [] ∧
    (0 : ℝ) < 13 ∧ (13 : ℝ) ^ 2 = (sumSqNat (rawEmbed "aaaaaaaaaaa") : ℝ) ∧
    ((rawEmbed "aaaaaaaaaaa").map (fun n : ℕ => ((n : ℝ) / 13) ^ 2)).sum = 1 := by
  have h13 : (13 : ℝ) ^ 2 = (sumSqNat (rawEmbed "aaaaaaaaaaa") : ℝ) := by
    have : sumSqNat (rawEmbed "aaaaaaaaaaa") = 169 := by decide
    rw [this]; norm_num
  exact ⟨C9_embedding_lifecycle.1 "foo.rs" fooText fooMatches _ (by decide),
    by norm_num, h13,
    C9_embedding_lifecycle.2 "aaaaaaaaaaa" 13 (by norm_num) h13⟩

/-- C1: in the indexed test project (file1 with `fn aaa` as its first
construct at byte 0, file2 with `fn bbb`), `search_project` for the query
`aaaa` returns the `aaa` Document first, with `byte_range.start = 0` and the
worktree identifier of the file's worktree. -/
theorem C1_search_ranking :
    ((search_project storeAfterFirstPass [1] "aaaa" 5).toOption.bind List.head?).map
      (fun r => (r.name, r.byteRange.1, r.worktreeId)) = some ("aaa", 0, 1) := by
  decide


theorem lookupPending_setPending_self (p : List (Nat × Nat)) (pid n : Nat) :
    lookupPending (setPending p pid n) pid = some n := by
  simp [setPending, lookupPending]

theorem lookupPending_setPending_ne (p : List (Nat × Nat)) (pid n pid' : Nat)
    (h : pid' ≠ pid) :
    lookupPending (setPending p pid n) pid' = lookupPending p pid' := by
  have hne : ¬ pid = pid' := fun he => h he.symm
  simp [setPending, lookupPending, hne]

/-- C3: `remaining_files_to_index_for_project` is `none` for every project
on a fresh store; is `none` for a project that was never submitted, however
many passes other projects ran; and reaches `some 0` after an
`index_project` pass for the submitted project fully drains (the model's
passes are fully drained on return). -/
theorem C3_remaining_files :
    (∀ pid : Nat, remaining_files_to_index_for_project VectorStore.empty pid = none) ∧
    (∀ (parse : FileSnapshot → Option (List Document)) (store : VectorStore)
      (pid : Nat) (files : List FileSnapshot),
      remaining_files_to_index_for_project (index_project parse store pid files).2 pid =
        some 0) ∧
    (∀ (parse : FileSnapshot → Option (List Document)) (store : VectorStore)
      (pid pid' : Nat) (files : List FileSnapshot), pid' ≠ pid →
      remaining_files_to_index_for_project (index_project parse store pid files).2 pid' =
        remaining_files_to_index_for_project store pid') := by
  refine ⟨fun pid => rfl, fun parse store pid files => ?_, fun parse store pid pid' files h => ?_⟩
  · simp [remaining_files_to_index_for_project, index_project,
      lookupPending_setPending_self]
  · simp [remaining_files_to_index_for_project, index_project,
      lookupPending_setPending_ne _ _ _ _ h]

/-- Witness for C3 on the concrete test project: project 0 is unknown to the
fresh store, reaches `some 0` after its pass drains, and project 1 — never
submitted — stays `none`. -/
theorem C3_remaining_files_witness :
    remaining_files_to_index_for_project VectorStore.empty 0 = none ∧
    remaining_files_to_index_for_project storeAfterFirstPass 0 = some 0 ∧
    remaining_files_to_index_for_project storeAfterFirstPass 1 = none := by
  refine ⟨C3_remaining_files.1 0, C3_remaining_files.2.1 concreteParse VectorStore.empty 0 [fs1, fs2], ?_⟩
  have h := C3_remaining_files.2.2 concreteParse VectorStore.empty 0 1 [fs1, fs2]
    (by decide)
  exact h.trans (C3_remaining_files.1 1)

/-- C10: the first `index_project` pass over a never-indexed project counts
every enumerated file with a registered language as changed — for a fresh
store and two parseable files, it returns `files_changed_count = 2`. -/
theorem C10_first_pass_counts_all (parse : FileSnapshot → Option (List Document))
    (pid : Nat) (f1 f2 : FileSnapshot)
    (h1 : (parse f1).isSome) (h2 : (parse f2).isSome) :
    (index_project parse VectorStore.empty pid [f1, f2]).1 = 2 := by
  simp [index_project, changedFiles, fileChanged, dbLookup, VectorStore.empty,
    List.filter_cons, h1, h2]

/-- Witness for C10 on the two files of the concrete test project. -/
theorem C10_first_pass_counts_all_witness :
    (concreteParse fs1).isSome = true ∧ (concreteParse fs2).isSome = true ∧
    (index_project concreteParse VectorStore.empty 0 [fs1, fs2]).1 = 2 :=
  ⟨by decide, by decide,
    C10_first_pass_counts_all concreteParse 0 fs1 fs2 (by decide) (by decide)⟩

namespace parsing

/-- A match that survives the overlap-skip policy is strictly subsumed by no
match of the input. -/
theorem not_contains_of_mem_kept {ms : List QueryMatch} {m : QueryMatch}
    (hm : m ∈ keptMatches ms) :
    ∀ n ∈ ms, ¬ strictlyContains n.itemRange m.itemRange := by
  intro n hn
  have h1 := List.of_mem_filter hm
  rw [Bool.not_eq_true'] at h1
  have h2 := List.any_eq_false.mp h1 n hn
  simpa using h2

end parsing

/-- C5: extraction is deterministic — two applications of `parse_file` to
the same `(path, source_text, matches)` are identical — and, whenever the
grammar collaborator's matches have nonempty item ranges pairwise disjoint
or strictly nested (as syntax-tree nodes are), the returned Document
sequence is ordered by strictly ascending `range.start` (source order). -/
theorem C5_extraction_deterministic (path source : String) (ms : List QueryMatch) :
    parse_file path source ms = parse_file path source ms ∧
    ((∀ m ∈ ms, m.itemRange.1 < m.itemRange.2) → ms.Pairwise sepOrNested →
      (parse_file path source ms).Pairwise (fun d1 d2 => d1.range.1 < d2.range.1)) := by
  refine ⟨rfl, fun hne hpw => ?_⟩
  have hsub : (keptMatches ms).Sublist ms := List.filter_sublist ms
  have hpwk : (keptMatches ms).Pairwise sepOrNested := List.Pairwise.sublist hsub hpw
  have hdisj : (keptMatches ms).Pairwise
      (fun m1 m2 => m1.itemRange.2 ≤ m2.itemRange.1 ∨ m2.itemRange.2 ≤ m1.itemRange.1) := by
    refine List.Pairwise.imp_of_mem ?_ hpwk
    intro a b ha hb hr
    rcases hr with h | h | h | h
    · exact Or.inl h
    · exact Or.inr h
    · exact absurd h (not_contains_of_mem_kept hb a (List.mem_of_mem_filter ha))
    · exact absurd h (not_contains_of_mem_kept ha b (List.mem_of_mem_filter hb))
  have hneq : (keptMatches ms).Pairwise
      (fun m1 m2 => m1.itemRange.1 ≠ m2.itemRange.1) := by
    refine List.Pairwise.imp_of_mem ?_ hdisj
    intro a b ha hb hr heq
    have ha' := hne a (List.mem_of_mem_filter ha)
    have hb' := hne b (List.mem_of_mem_filter hb)
    rcases hr with h | h <;> omega
  haveI : IsTotal QueryMatch (fun m1 m2 => m1.itemRange.1 ≤ m2.itemRange.1) :=
    ⟨fun a b => Nat.le_total _ _⟩
  haveI : IsTrans QueryMatch (fun m1 m2 => m1.itemRange.1 ≤ m2.itemRange.1) :=
    ⟨fun _ _ _ h1 h2 => Nat.le_trans h1 h2⟩
  have hsorted := List.sorted_insertionSort
    (fun m1 m2 : QueryMatch => m1.itemRange.1 ≤ m2.itemRange.1) (keptMatches ms)
  have hperm := List.perm_insertionSort
    (fun m1 m2 : QueryMatch => m1.itemRange.1 ≤ m2.itemRange.1) (keptMatches ms)
  have hneq' := (List.Perm.pairwise_iff (fun h => Ne.symm h) hperm).mpr hneq
  have hlt := (List.Pairwise.and hsorted hneq').imp
    (fun h => lt_of_le_of_ne h.1 h.2)
  simp only [parse_file]
  rw [List.pairwise_map]
  exact hlt

/-- Witness for C5 on the doc-comment fixture's matches. -/
theorem C5_extraction_deterministic_witness :
    fooMatches.Pairwise sepOrNested ∧
    (parse_file "foo.rs" fooText fooMatches).Pairwise
      (fun d1 d2 => d1.range.1 < d2.range.1) :=
  ⟨by decide,
    (C5_extraction_deterministic "foo.rs" fooText fooMatches).2 (by decide) (by decide)⟩


theorem dbLookup_upsert_self (db : List DBEntry) (k : Nat × String)
    (v : String × List Document) : dbLookup (upsert db k v) k = some v := by
  simp [upsert, dbLookup]

theorem dbLookup_filter_ne (db : List DBEntry) (k k' : Nat × String) (h : k' ≠ k) :
    dbLookup (db.filter (fun e => decide (e.1 ≠ k))) k' = dbLookup db k' := by
  induction db with
  | nil => rfl
  | cons e rest ih =>
    rw [List.filter_cons]
    by_cases he : e.1 = k
    · have hcond : (decide (e.1 ≠ k)) = false := by simp [he]
      rw [hcond]
      simp only [Bool.false_eq_true, if_false]
      rw [ih]
      have h2 : ¬ e.1 = k' := fun hx => h (hx.symm.trans he)
      conv_rhs => rw [show dbLookup (e :: rest) k' = if e.1 = k' then some e.2 else dbLookup rest k' from rfl]
      rw [if_neg h2]
    · have hcond : (decide (e.1 ≠ k)) = true := by simp [he]
      rw [hcond]
      simp only [if_true]
      rw [show dbLookup (e :: List.filter (fun e => decide (e.1 ≠ k)) rest) k' =
        if e.1 = k' then some e.2 else dbLookup (List.filter (fun e => decide (e.1 ≠ k)) rest) k' from rfl]
      rw [show dbLookup (e :: rest) k' = if e.1 = k' then some e.2 else dbLookup rest k' from rfl]
      by_cases he' : e.1 = k'
      · rw [if_pos he', if_pos he']
      · rw [if_neg he', if_neg he', ih]

theorem dbLookup_upsert_ne (db : List DBEntry) (k : Nat × String)
    (v : String × List Document) (k' : Nat × String) (h : k' ≠ k) :
    dbLookup (upsert db k v) k' = dbLookup db k' := by
  have h2 : ¬ k = k' := fun hx => h hx.symm
  rw [upsert, show dbLookup ((k, v) :: db.filter (fun e => decide (e.1 ≠ k))) k' =
    if k = k' then some v else dbLookup (db.filter (fun e => decide (e.1 ≠ k))) k' from rfl]
  rw [if_neg h2]
  exact dbLookup_filter_ne db k k' h

theorem dbLookup_filter_of_key (db : List DBEntry) (p : DBEntry → Bool)
    (k : Nat × String) (hp : ∀ v, p (k, v) = true) :
    dbLookup (db.filter p) k = dbLookup db k := by
  induction db with
  | nil => rfl
  | cons e rest ih =>
    rw [List.filter_cons]
    by_cases he : e.1 = k
    · have he' : e = (k, e.2) := by rw [← he]
      have hpe : p e = true := by rw [he']; exact hp e.2
      rw [hpe]
      simp only [if_true]
      rw [show dbLookup (e :: List.filter p rest) k =
        if e.1 = k then some e.2 else dbLookup (List.filter p rest) k from rfl]
      rw [show dbLookup (e :: rest) k = if e.1 = k then some e.2 else dbLookup rest k from rfl]
      rw [if_pos he, if_pos he]
    · cases hpe : p e with
      | true =>
        simp only [if_true]
        rw [show dbLookup (e :: List.filter p rest) k =
          if e.1 = k then some e.2 else dbLookup (List.filter p rest) k from rfl]
        rw [show dbLookup (e :: rest) k = if e.1 = k then some e.2 else dbLookup rest k from rfl]
        rw [if_neg he, if_neg he, ih]
      | false =>
        simp only [Bool.false_eq_true, if_false]
        rw [show dbLookup (e :: rest) k = if e.1 = k then some e.2 else dbLookup rest k from rfl]
        rw [if_neg he, ih]

theorem dbLookup_pruneDb (db : List DBEntry) (files : List FileSnapshot)
    (k : Nat × String) (hk : k ∈ files.map keyOf) :
    dbLookup (pruneDb db files) k = dbLookup db k := by
  refine dbLookup_filter_of_key db _ k (fun v => ?_)
  simp [hk]

theorem dbLookup_commitFiles_not_mem (parse : FileSnapshot → Option (List Document)) :
    ∀ (l : List FileSnapshot) (db0 : List DBEntry) (k : Nat × String),
      k ∉ l.map keyOf →
      dbLookup (commitFiles parse db0 l) k = dbLookup db0 k := by
  intro l
  induction l with
  | nil => intro db0 k _; rfl
  | cons f rest ih =>
    intro db0 k hk
    simp only [List.map_cons, List.mem_cons, not_or] at hk
    rw [show commitFiles parse db0 (f :: rest) =
      commitFiles parse (upsert db0 (keyOf f) (f.content, embedDocs ((parse f).getD []))) rest
      from rfl]
    rw [ih _ _ hk.2]
    exact dbLookup_upsert_ne _ _ _ _ hk.1

theorem dbLookup_commitFiles_mem (parse : FileSnapshot → Option (List Document)) :
    ∀ (l : List FileSnapshot) (db0 : List DBEntry) (g : FileSnapshot),
      g ∈ l → (l.map keyOf).Nodup →
      dbLookup (commitFiles parse db0 l) (keyOf g) =
        some (g.content, embedDocs ((parse g).getD [])) := by
  intro l
  induction l with
  | nil => intro db0 g hg _; cases hg
  | cons f rest ih =>
    intro db0 g hg hnd
    simp only [List.map_cons, List.nodup_cons] at hnd
    rcases List.mem_cons.mp hg with hgf | hgr
    · subst hgf
      rw [show commitFiles parse db0 (g :: rest) =
        commitFiles parse (upsert db0 (keyOf g) (g.content, embedDocs ((parse g).getD []))) rest
        from rfl]
      rw [dbLookup_commitFiles_not_mem parse rest _ _ hnd.1]
      exact dbLookup_upsert_self _ _ _
    · rw [show commitFiles parse db0 (f :: rest) =
        commitFiles parse (upsert db0 (keyOf f) (f.content, embedDocs ((parse f).getD []))) rest
        from rfl]
      exact ih _ g hgr hnd.2

theorem eq_of_keyOf_eq {files : List FileSnapshot}
    (hnd : (files.map keyOf).Nodup) {g h : FileSnapshot}
    (hg : g ∈ files) (hh : h ∈ files) (hk : keyOf g = keyOf h) : g = h := by
  induction files with
  | nil => cases hg
  | cons a rest ih =>
    simp only [List.map_cons, List.nodup_cons] at hnd
    rcases List.mem_cons.mp hg with rfl | hg'
    · rcases List.mem_cons.mp hh with rfl | hh'
      · rfl
      · have hmem : keyOf g ∈ rest.map keyOf := by
          rw [hk]; exact List.mem_map_of_mem keyOf hh'
        exact absurd hmem hnd.1
    · rcases List.mem_cons.mp hh with rfl | hh'
      · have hmem : keyOf h ∈ rest.map keyOf := by
          rw [← hk]; exact List.mem_map_of_mem keyOf hg'
        exact absurd hmem hnd.1
      · exact ih hnd.2 hg' hh'

theorem fingerprint_after_index (parse : FileSnapshot → Option (List Document))
    (store : VectorStore) (pid : Nat) (files : List FileSnapshot)
    (hnd : (files.map keyOf).Nodup) (g : FileSnapshot) (hg : g ∈ files)
    (hsome : (parse g).isSome = true) :
    ∃ docs, dbLookup (index_project parse store pid files).2.db (keyOf g) =
      some (g.content, docs) := by
  have hkm : keyOf g ∈ files.map keyOf := List.mem_map_of_mem keyOf hg
  simp only [index_project]
  by_cases hch : fileChanged store.db g = true
  · refine ⟨embedDocs ((parse g).getD []), ?_⟩
    have hgch : g ∈ changedFiles parse store.db files := by
      simp [changedFiles, List.mem_filter, hg, hsome, hch]
    have hndc : ((changedFiles parse store.db files).map keyOf).Nodup :=
      List.Nodup.sublist ((List.filter_sublist files).map keyOf) hnd
    exact dbLookup_commitFiles_mem parse _ _ g hgch hndc
  · rw [Bool.not_eq_true] at hch
    rcases hdb : dbLookup store.db (keyOf g) with _ | v
    · rw [fileChanged, hdb] at hch
      cases hch
    · obtain ⟨fp, docs⟩ := v
      have hfp : fp = g.content := by
        rw [fileChanged, hdb] at hch
        simpa using hch
      subst hfp
      refine ⟨docs, ?_⟩
      have hnotch : keyOf g ∉ (changedFiles parse store.db files).map keyOf := by
        intro hmem
        rw [List.mem_map] at hmem
        obtain ⟨h, hh, hkeq⟩ := hmem
        have hhf : h ∈ files := List.mem_of_mem_filter hh
        have heq : h = g := eq_of_keyOf_eq hnd hhf hg hkeq
        subst heq
        have hcond := List.of_mem_filter hh
        rw [hch] at hcond
        simp at hcond
      rw [dbLookup_commitFiles_not_mem parse _ _ _ hnotch]
      rw [dbLookup_pruneDb store.db files _ hkm]
      exact hdb

theorem not_changed_after_index (parse : FileSnapshot → Option (List Document))
    (store : VectorStore) (pid : Nat) (files : List FileSnapshot)
    (hnd : (files.map keyOf).Nodup) (g : FileSnapshot) (hg : g ∈ files) :
    ((parse g).isSome && fileChanged (index_project parse store pid files).2.db g) = false := by
  cases hsome : (parse g).isSome with
  | false => simp
  | true =>
    obtain ⟨docs, hdocs⟩ := fingerprint_after_index parse store pid files hnd g hg hsome
    simp [fileChanged, hdocs]

theorem C2_reembed_on_change_only
    (parse : FileSnapshot → Option (List Document)) (store : VectorStore)
    (pid : Nat) (files : List FileSnapshot) (f : FileSnapshot) (c' : String)
    (docs2 : List Document)
    (hnd : (files.map keyOf).Nodup) (hmem : f ∈ files)
    (hne : c' ≠ f.content) (hold : (parse f).isSome = true)
    (hnew : parse { f with content := c' } = some docs2)
    (hlen : docs2.length = 2) :
    ((index_project parse (index_project parse store pid files).2 pid files).1 = 0 ∧
      (index_project parse (index_project parse store pid files).2 pid files).2.embedCount =
        (index_project parse store pid files).2.embedCount) ∧
    ((index_project parse (index_project parse store pid files).2 pid
        (files.map (fun g => if keyOf g = keyOf f then { g with content := c' } else g))).1 = 1 ∧
      (index_project parse (index_project parse store pid files).2 pid
        (files.map (fun g => if keyOf g = keyOf f then { g with content := c' } else g))).2.embedCount =
        (index_project parse store pid files).2.embedCount + 2) := by
  constructor
  · have hnil : changedFiles parse (index_project parse store pid files).2.db files = [] := by
      rw [changedFiles, List.filter_eq_nil_iff]
      intro g hg
      rw [not_changed_after_index parse store pid files hnd g hg]
      simp
    simp only [index_project] at hnil ⊢
    constructor
    · rw [hnil]
      rfl
    · rw [hnil]
      simp [spanCount]
  · obtain ⟨l1, l2, rfl⟩ := List.append_of_mem hmem
    have hknotin : keyOf f ∉ l1.map keyOf ++ l2.map keyOf := by
      have h1 : ((l1 ++ f :: l2).map keyOf).Nodup := hnd
      rw [List.map_append, List.map_cons] at h1
      exact (List.nodup_cons.mp (List.nodup_middle.mp h1)).1
    have hmap : (l1 ++ f :: l2).map
        (fun g => if keyOf g = keyOf f then { g with content := c' } else g) =
        l1 ++ { f with content := c' } :: l2 := by
      rw [List.map_append, List.map_cons]
      have hl1 : l1.map (fun g => if keyOf g = keyOf f then { g with content := c' } else g) = l1 := by
        conv_rhs => rw [← List.map_id l1]
        refine List.map_congr_left (fun g hg => ?_)
        have hneq : ¬ keyOf g = keyOf f := by
          intro hgf
          have : keyOf f ∈ l1.map keyOf := by
            rw [← hgf]; exact List.mem_map_of_mem keyOf hg
          exact hknotin (List.mem_append_left _ this)
        rw [if_neg hneq]
        rfl
      have hl2 : l2.map (fun g => if keyOf g = keyOf f then { g with content := c' } else g) = l2 := by
        conv_rhs => rw [← List.map_id l2]
        refine List.map_congr_left (fun g hg => ?_)
        have hneq : ¬ keyOf g = keyOf f := by
          intro hgf
          have : keyOf f ∈ l2.map keyOf := by
            rw [← hgf]; exact List.mem_map_of_mem keyOf hg
          exact hknotin (List.mem_append_right _ this)
        rw [if_neg hneq]
        rfl
      rw [hl1, hl2, if_pos rfl]
    rw [hmap]
    have hchanged : changedFiles parse (index_project parse store pid (l1 ++ f :: l2)).2.db
        (l1 ++ { f with content := c' } :: l2) = [{ f with content := c' }] := by
      rw [changedFiles, List.filter_append, List.filter_cons]
      have hc1 : l1.filter
          (fun g => (parse g).isSome &&
            fileChanged (index_project parse store pid (l1 ++ f :: l2)).2.db g) = [] := by
        rw [List.filter_eq_nil_iff]
        intro g hg
        rw [not_changed_after_index parse store pid _ hnd g (List.mem_append_left _ hg)]
        simp
      have hc2 : l2.filter
          (fun g => (parse g).isSome &&
            fileChanged (index_project parse store pid (l1 ++ f :: l2)).2.db g) = [] := by
        rw [List.filter_eq_nil_iff]
        intro g hg
        rw [not_changed_after_index parse store pid _ hnd g
          (List.mem_append_right _ (List.mem_cons_of_mem f hg))]
        simp
      have hcf : ((parse { f with content := c' }).isSome &&
          fileChanged (index_project parse store pid (l1 ++ f :: l2)).2.db
            { f with content := c' }) = true := by
        obtain ⟨docs, hdocs⟩ :=
          fingerprint_after_index parse store pid (l1 ++ f :: l2) hnd f hmem hold
        have hcne : f.content ≠ c' := fun hx => hne hx.symm
        rw [fileChanged, show keyOf { f with content := c' } = keyOf f from rfl, hdocs]
        simp [hnew, hcne]
      rw [hc1, hc2, hcf]
      simp
    simp only [index_project] at hchanged ⊢
    constructor
    · rw [hchanged]
      rfl
    · rw [hchanged]
      simp [spanCount, hnew, hlen]

/-- Witness for C2 on the concrete test scenario: after the first pass, a
no-change pass returns 0 with no embedding calls, and editing `src/file2.rs`
to the `dddd`/`pqpqpqp` content (two documents) makes the next pass return 1
and raises the provider's span count by exactly 2. -/
theorem C2_reembed_on_change_only_witness :
    ((index_project concreteParse storeAfterFirstPass 0 [fs1, fs2]).1 = 0 ∧
      (index_project concreteParse storeAfterFirstPass 0 [fs1, fs2]).2.embedCount =
        storeAfterFirstPass.embedCount) ∧
    ((index_project concreteParse storeAfterFirstPass 0
        ([fs1, fs2].map (fun g =>
          if keyOf g = keyOf fs2 then { g with content := file2TextB } else g))).1 = 1 ∧
      (index_project concreteParse storeAfterFirstPass 0
        ([fs1, fs2].map (fun g =>
          if keyOf g = keyOf fs2 then { g with content := file2TextB } else g))).2.embedCount =
        storeAfterFirstPass.embedCount + 2) :=
  C2_reembed_on_change_only concreteParse VectorStore.empty 0 [fs1, fs2] fs2 file2TextB
    (parse_file "src/file2.rs" file2TextB file2MatchesB)
    (by decide) (by decide) (by decide) (by decide) rfl (by decide)

/-- Comparing two cosines with positive squared norms and nonnegative
numerators is equivalent to comparing the cross-multiplied squares — the
exact-arithmetic comparison used by the ranking comparator. -/
theorem cosine_lt_iff_cross (qa qb na nb : ℝ) (hna : 0 < na) (hnb : 0 < nb)
    (hqa : 0 ≤ qa) (hqb : 0 ≤ qb) :
    qa / Real.sqrt na < qb / Real.sqrt nb ↔ qa ^ 2 * nb < qb ^ 2 * na := by
  rw [div_lt_div_iff₀ (Real.sqrt_pos.mpr hna) (Real.sqrt_pos.mpr hnb)]
  rw [mul_self_lt_mul_self_iff
    (mul_nonneg hqa (Real.sqrt_nonneg nb)) (mul_nonneg hqb (Real.sqrt_nonneg na))]
  rw [mul_mul_mul_comm qa (Real.sqrt nb) qa (Real.sqrt nb),
    Real.mul_self_sqrt hnb.le,
    mul_mul_mul_comm qb (Real.sqrt na) qb (Real.sqrt na),
    Real.mul_self_sqrt hna.le]
  ring_nf

/-- The primary comparison of `rankBefore` — cross-multiplying the squared
dot products with the squared norms over `Nat` — decides exactly the real
cosine ordering of the two documents against the query. -/
theorem rankBefore_decides_cosine (q : List Nat) (a b : (Nat × String) × Document)
    (ha : 0 < sumSqNat a.2.embedding) (hb : 0 < sumSqNat b.2.embedding) :
    ((dotN q b.2.embedding : ℝ) / Real.sqrt (sumSqNat b.2.embedding) <
      (dotN q a.2.embedding : ℝ) / Real.sqrt (sumSqNat a.2.embedding)) ↔
    ((dotN q b.2.embedding) ^ 2 * sumSqNat a.2.embedding <
      (dotN q a.2.embedding) ^ 2 * sumSqNat b.2.embedding) := by
  rw [cosine_lt_iff_cross _ _ _ _
    (by exact_mod_cast hb) (by exact_mod_cast ha)
    (by positivity) (by positivity)]
  constructor
  · intro h; exact_mod_cast h
  · intro h; exact_mod_cast h
